import Mathlib

/-!
Verification of the `Generators` model/state/tokenizer orchestration layer
(onnxruntime-genai `model.h` surface) via a shallow embedding in Lean 4.

The repository portion available consists of the interface header
(declarations, documentation comments, and the inline
`EPContextSupportedProviders`) plus an example driver.  Functions whose
bodies are in the header are embedded from the source; functions whose
bodies live elsewhere in the repository are modelled from the
specification, each marked `Modelled from the spec:` in its doc comment.
-/

namespace Generators

/-- Device types referenced by the header (`DeviceType::CPU`,
`DeviceType::NvTensorRtRtx`); the remaining constructors stand for the other
execution targets of the enum, which the header's `switch` treats uniformly
through its `default` branch. -/
inductive DeviceType where
  | CPU
  | CUDA
  | DML
  | WEBGPU
  | QNN
  | OpenVINO
  | NvTensorRtRtx
  deriving DecidableEq, Repr

/-- Embeds `Model::EPContextSupportedProviders` (header, inline body):
a `switch` returning `"NvTensorRTRTXExecutionProvider"` for
`DeviceType::NvTensorRtRtx` and the empty string in the `default` case. -/
def EPContextSupportedProviders (device_type : DeviceType) : String :=
  match device_type with
  | DeviceType.NvTensorRtRtx => "NvTensorRTRTXExecutionProvider"
  | _ => ""

/-- EP-compatibility verdicts reported by
`GetModelCompatibilityForEpDevices` (the engine collaborator). `other`
stands for every verdict that is neither `OPTIMAL` nor
`PREFER_RECOMPILATION`. -/
inductive CompatVerdict where
  | OPTIMAL
  | PREFER_RECOMPILATION
  | other
  deriving DecidableEq, Repr

/-- Modelled from the spec: the body of `Model::ValidateCompiledModel` is not
in the available sources; its documented contract is "Context is valid only
if: (1) compatibility info is present for this EP, and (2)
`GetModelCompatibilityForEpDevices` returns OPTIMAL or
(PREFER_RECOMPILATION when `force_compile_if_needed` is false). All other
cases return false."  The compiled artifact is abstracted to the optional
compatibility metadata the engine reports for it. -/
def ValidateCompiledModel (compat_info : Option CompatVerdict)
    (force_compile_if_needed : Bool) : Bool :=
  match compat_info with
  | none => false
  | some CompatVerdict.OPTIMAL => true
  | some CompatVerdict.PREFER_RECOMPILATION => !force_compile_if_needed
  | some CompatVerdict.other => false

/-- The compile options from config that drive `CompileModel`
(`compile_options` block: `enable_ep_context` gates compilation,
`force_compile_if_needed` drives revalidation). -/
structure CompileOptions where
  enable_ep_context : Bool
  force_compile_if_needed : Bool
  deriving DecidableEq, Repr

/-- The on-disk situation `CheckCompiledModelExists` inspects: whether a
compiled artifact file is present at the (default or configured) output
path, and the compatibility metadata the engine reports for it. -/
structure CompiledArtifact where
  exists_on_disk : Bool
  compat_info : Option CompatVerdict
  deriving DecidableEq, Repr

/-- Modelled from the spec: the body of `Model::CheckCompiledModelExists` is
not in the available sources; per its documentation it "Checks if a compiled
model exists and is valid", validity being delegated to
`ValidateCompiledModel` with the configured `force_compile_if_needed`. -/
def CheckCompiledModelExists (artifact : CompiledArtifact)
    (opts : CompileOptions) : Bool :=
  artifact.exists_on_disk &&
    ValidateCompiledModel artifact.compat_info opts.force_compile_if_needed

/-- Result of `CompileModel`: the path returned for session creation and
whether the ahead-of-time compiler was invoked. Paths are abstracted to a
three-way tag: the original model file, the cached compiled artifact, or a
freshly emitted compiled artifact (cached and fresh share the same on-disk
location; the tag records which branch produced it). -/
inductive CompilePath where
  | original
  | cachedCompiled
  | freshCompiled
  deriving DecidableEq, Repr

structure CompileResult where
  path : CompilePath
  compiler_invoked : Bool
  deriving DecidableEq, Repr

/-- Modelled from the spec: the body of `Model::CompileModel` is not in the
available sources; per its documentation and the spec, `enable_ep_context`
"Controls whether model compilation is performed (default: not set, no
compilation)", and the function "either (a) reuses an existing compiled
artifact if found valid, or (b) invokes the engine's ahead-of-time compiler
to emit a new artifact", returning "the model path to use for creating
session (original if not compiled, compiled path if compiled)". -/
def CompileModel (opts : CompileOptions) (artifact : CompiledArtifact) :
    CompileResult :=
  if !opts.enable_ep_context then
    { path := CompilePath.original, compiler_invoked := false }
  else if CheckCompiledModelExists artifact opts then
    { path := CompilePath.cachedCompiled, compiler_invoked := false }
  else
    { path := CompilePath.freshCompiled, compiler_invoked := true }

/-- Maximum sequence length over a batch of ragged token sequences. -/
def maxSeqLen (sequences : List (List Int)) : Nat :=
  (sequences.map List.length).foldr Nat.max 0

/-- Pads one row out to `max_len` with `pad_token_id`, on the left or on the
right. -/
def padRow (pad_left : Bool) (max_len : Nat) (pad_token_id : Int)
    (row : List Int) : List Int :=
  if pad_left then
    List.replicate (max_len - row.length) pad_token_id ++ row
  else
    row ++ List.replicate (max_len - row.length) pad_token_id

/-- Modelled from the spec: the body of `PadInputs` is not in the available
sources; per its documentation and the spec it turns "an array of ragged
token sequences into a 2D input suitable for batching", producing "a single
flattened buffer of shape `[batch, max_len]`, left- or right-padding each
row with `pad_token_id` up to the longest sequence in the batch". -/
def PadInputs (pad_left : Bool) (sequences : List (List Int))
    (pad_token_id : Int) : List Int :=
  (sequences.map (padRow pad_left (maxSeqLen sequences) pad_token_id)).flatten

/-- Modelled from the spec: the body of `Model::ExpandInputs` is not in the
available sources; per the spec it "replicates an input tensor along the
batch dimension by a beam-count factor", preserving "element order within
each replicated block (row-major repeat, not interleave)".  The tensor is
abstracted to its list of batch rows. -/
def ExpandInputs (input : List (List Int)) (num_beams : Nat) :
    List (List Int) :=
  (input.map (List.replicate num_beams)).flatten

end Generators

/-- Row `i` of the flattened `[batch, max_len]` buffer that `PadInputs`
produces: the slice `[i * max_len, (i + 1) * max_len)`. -/
def padSlice (pad_left : Bool) (seqs : List (List Int)) (pad : Int)
    (i : Nat) : List Int :=
  ((Generators.PadInputs pad_left seqs pad).drop
      (i * Generators.maxSeqLen seqs)).take (Generators.maxSeqLen seqs)

/-- Association-list lookup by key, first match wins (the shape of every
name-keyed lookup in the embedded code). -/
def assocLookup {α β : Type} [DecidableEq α] : List (α × β) → α → Option β
  | [], _ => none
  | (a, b) :: rest, x => if x = a then some b else assocLookup rest x

namespace Generators

/-- The tokenizer vocabulary: symbol/token-id pairs.  The underlying
tokenization engine is external; symbols are abstracted to characters. -/
structure Vocab where
  entries : List (Char × Nat)
  deriving DecidableEq, Repr

/-- A well-formed vocabulary assigns each token id to at most one symbol. -/
def Vocab.WellFormed (v : Vocab) : Prop :=
  (v.entries.map Prod.snd).Nodup

instance (v : Vocab) : Decidable v.WellFormed := by
  unfold Vocab.WellFormed
  infer_instance

/-- Modelled from the spec: the body of `Tokenizer::Encode` is not in the
available sources (it delegates to the external tokenization engine); per
the spec it is a "deterministic pure function of the configured
vocabulary" mapping text to a sequence of token ids.  Returns `none` when
the text contains a symbol unknown to the vocabulary. -/
def Encode (v : Vocab) : List Char → Option (List Nat)
  | [] => some []
  | c :: cs =>
    match assocLookup v.entries c, Encode v cs with
    | some i, some is => some (i :: is)
    | _, _ => none

/-- Modelled from the spec: the body of `Tokenizer::Decode` is not in the
available sources (it delegates to the external tokenization engine); per
the spec it is a "deterministic pure function of the configured
vocabulary" mapping a sequence of token ids back to text. -/
def Decode (v : Vocab) : List Nat → Option (List Char)
  | [] => some []
  | i :: is =>
    match assocLookup (v.entries.map Prod.swap) i, Decode v is with
    | some c, some cs => some (c :: cs)
    | _, _ => none

/-- The observable decode state a `State` subclass caches: one entry per
executed step (abstract KV-cache column). -/
structure GenState (α : Type) where
  cache : List α
  deriving DecidableEq, Repr

/-- Modelled from the spec: the cache-truncation mechanics of
`State::RewindTo` live in the concrete subclasses, which are not in the
available sources; per the spec it "logically truncates the sequence
position back to `index`, discarding any cached key/value state beyond
it". -/
def RewindTo {α : Type} (index : Nat) (s : GenState α) : GenState α :=
  { cache := s.cache.take index }

/-- Modelled from the spec: the concrete `State::Run` implementations are
not in the available sources; per the spec each step is a deterministic
function of the bound state and the next token, extending the cache by one
entry per executed step. -/
def runSteps {α : Type} (step : List α → Int → α) (s : GenState α)
    (tokens : List Int) : GenState α :=
  tokens.foldl (fun st t => { cache := st.cache ++ [step st.cache t] }) s

/-- The input/output binding state of a `State`: parallel name/tensor
vectors (`input_names_`/`inputs_`, `output_names_`/`outputs_`); tensor
handles are abstracted to numeric ids. -/
structure StateIO where
  input_names_ : List String
  output_names_ : List String
  inputs_ : List Nat
  outputs_ : List Nat
  deriving DecidableEq, Repr

/-- The index-alignment invariant on a `State`'s binding vectors. -/
def Aligned (s : StateIO) : Prop :=
  s.input_names_.length = s.inputs_.length ∧
    s.output_names_.length = s.outputs_.length

instance (s : StateIO) : Decidable (Aligned s) := by
  unfold Aligned
  infer_instance

/-- Modelled from the spec: the body of `State::GetInput` is not in the
available sources; per the spec it looks "up a currently bound tensor by
name" and "returns null (not an error) when absent". -/
def GetInput (s : StateIO) (name : String) : Option Nat :=
  assocLookup (s.input_names_.zip s.inputs_) name

/-- Modelled from the spec: the body of `State::GetOutput` is not in the
available sources; per the spec it looks "up a currently bound tensor by
name" and "returns null (not an error) when absent". -/
def GetOutput (s : StateIO) (name : String) : Option Nat :=
  assocLookup (s.output_names_.zip s.outputs_) name

/-- Binding an input pushes the name and the tensor handle in lock-step. -/
def bindInput (s : StateIO) (name : String) (v : Nat) : StateIO :=
  { s with input_names_ := s.input_names_ ++ [name],
           inputs_ := s.inputs_ ++ [v] }

/-- Binding an output pushes the name and the tensor handle in lock-step. -/
def bindOutput (s : StateIO) (name : String) (v : Nat) : StateIO :=
  { s with output_names_ := s.output_names_ ++ [name],
           outputs_ := s.outputs_ ++ [v] }

/-- Modelled from the spec: the body of `State::ClearIO` is not in the
available sources; per the header it is "Clear all inputs/outputs" and per
the spec it "drops all bound input/output tensor handles in one atomic
step". -/
def ClearIO (s : StateIO) : StateIO :=
  { s with input_names_ := [], output_names_ := [],
           inputs_ := [], outputs_ := [] }

/-- The operations visible to the `first_run_` flag: an engine `Run`, an
explicit rewind, and everything else. -/
inductive StateOp where
  | run
  | rewind
  | other
  deriving DecidableEq, Repr

/-- Modelled from the spec: the `first_run_` mechanics are not in the
available sources; per the spec `first_run_` starts true, transitions
"true → false on first successful `Run`", and "never resets except via
explicit rewind". -/
def stepFirstRun (b : Bool) : StateOp → Bool
  | StateOp.run => false
  | StateOp.rewind => true
  | StateOp.other => b

/-- The value of `first_run_` after a sequence of operations on a fresh
`State` (initial value true). -/
def firstRunAfter (ops : List StateOp) : Bool :=
  ops.foldl stepFirstRun true

end Generators

section ListHelpers

variable {α : Type}

theorem length_mem_le_maxSeqLen (seqs : List (List Int)) (r : List Int)
    (hr : r ∈ seqs) : r.length ≤ Generators.maxSeqLen seqs := by
  induction seqs with
  | nil => cases hr
  | cons s rest ih =>
    rcases List.mem_cons.mp hr with h | h
    · subst h
      exact Nat.le_max_left _ _
    · exact Nat.le_trans (ih h) (Nat.le_max_right _ _)

theorem padRow_length (b : Bool) (L : Nat) (pad : Int) (row : List Int)
    (h : row.length ≤ L) :
    (Generators.padRow b L pad row).length = L := by
  cases b <;> simp [Generators.padRow] <;> omega

theorem join_length_const (rows : List (List α)) (L : Nat)
    (h : ∀ r ∈ rows, r.length = L) :
    rows.flatten.length = rows.length * L := by
  induction rows with
  | nil => simp
  | cons r rest ih =>
    have hr : r.length = L := h r (List.mem_cons_self _ _)
    have hrest : rest.flatten.length = rest.length * L :=
      ih fun s hs => h s (List.mem_cons_of_mem _ hs)
    simp [List.flatten, hr, hrest, Nat.succ_mul, Nat.add_comm]

theorem drop_append_len (l₁ l₂ : List α) (n : Nat) :
    (l₁ ++ l₂).drop (l₁.length + n) = l₂.drop n := by
  induction l₁ with
  | nil => simp
  | cons a l ih => simpa [Nat.succ_add] using ih

theorem take_append_len (l₁ l₂ : List α) :
    (l₁ ++ l₂).take l₁.length = l₁ := by
  induction l₁ with
  | nil => simp
  | cons a l ih => simpa using ih

theorem drop_append_exact (l₁ l₂ : List α) :
    (l₁ ++ l₂).drop l₁.length = l₂ := by
  simpa using drop_append_len l₁ l₂ 0

theorem drop_replicate_append (n : Nat) (a : α) (l : List α) :
    (List.replicate n a ++ l).drop n = l := by
  have h := drop_append_exact (List.replicate n a) l
  simpa using h

theorem take_replicate_append (n : Nat) (a : α) (l : List α) :
    (List.replicate n a ++ l).take n = List.replicate n a := by
  have h := take_append_len (List.replicate n a) l
  simpa using h

theorem join_row_slice (rows : List (List α)) (L : Nat)
    (h : ∀ r ∈ rows, r.length = L) :
    ∀ i (hi : i < rows.length),
      (rows.flatten.drop (i * L)).take L = rows.get ⟨i, hi⟩ := by
  induction rows with
  | nil => intro i hi; cases (Nat.not_lt_zero i) hi
  | cons r rest ih =>
    intro i hi
    have hr : r.length = L := h r (List.mem_cons_self _ _)
    cases i with
    | zero =>
      simp only [Nat.zero_mul, List.drop_zero, List.flatten_cons, List.get]
      rw [← hr, take_append_len]
    | succ j =>
      have hrest : ∀ s ∈ rest, s.length = L :=
        fun s hs => h s (List.mem_cons_of_mem _ hs)
      have hj : j < rest.length := Nat.lt_of_succ_lt_succ hi
      have hdrop : ((r :: rest).flatten.drop ((j + 1) * L)) =
          rest.flatten.drop (j * L) := by
        have : (j + 1) * L = r.length + j * L := by
          rw [hr]; ring
        rw [this]
        show (r ++ rest.flatten).drop (r.length + j * L) = rest.flatten.drop (j * L)
        exact drop_append_len _ _ _
      rw [hdrop]
      exact ih hrest j hj

end ListHelpers

theorem padSlice_eq (pad_left : Bool) (seqs : List (List Int)) (pad : Int)
    (i : Fin seqs.length) :
    padSlice pad_left seqs pad i.val =
      Generators.padRow pad_left (Generators.maxSeqLen seqs) pad
        (seqs.get i) := by
  have hlen : ∀ r ∈ seqs.map
      (Generators.padRow pad_left (Generators.maxSeqLen seqs) pad),
      r.length = Generators.maxSeqLen seqs := by
    intro r hr
    rcases List.mem_map.mp hr with ⟨s, hs, rfl⟩
    exact padRow_length _ _ _ _ (length_mem_le_maxSeqLen seqs s hs)
  have hi : i.val < (seqs.map
      (Generators.padRow pad_left (Generators.maxSeqLen seqs) pad)).length := by
    simpa using i.isLt
  have hslice := join_row_slice _ _ hlen i.val hi
  have hget : (seqs.map
      (Generators.padRow pad_left (Generators.maxSeqLen seqs) pad)).get
        ⟨i.val, hi⟩ =
      Generators.padRow pad_left (Generators.maxSeqLen seqs) pad
        (seqs.get i) := by
    simp [List.get_eq_getElem, List.getElem_map]
  rw [padSlice, Generators.PadInputs]
  rw [hslice, hget]

/-- C10: `Model::EPContextSupportedProviders` returns
`"NvTensorRTRTXExecutionProvider"` exactly for `DeviceType::NvTensorRtRtx`
and the empty string for every other device type. -/
theorem EPContextSupportedProviders_spec (d : Generators.DeviceType) :
    Generators.EPContextSupportedProviders d =
      if d = Generators.DeviceType.NvTensorRtRtx
      then "NvTensorRTRTXExecutionProvider" else "" := by
  cases d <;> rfl

/-- C1: `ValidateCompiledModel` declares the artifact valid iff
compatibility metadata is present and the verdict is `OPTIMAL`, or it is
`PREFER_RECOMPILATION` while `force_compile_if_needed` is false; every
other verdict, or absent metadata, yields false. -/
theorem ValidateCompiledModel_spec (info : Option Generators.CompatVerdict)
    (force : Bool) :
    Generators.ValidateCompiledModel info force = true ↔
      (info = some Generators.CompatVerdict.OPTIMAL ∨
        (info = some Generators.CompatVerdict.PREFER_RECOMPILATION ∧
          force = false)) := by
  cases info with
  | none => simp [Generators.ValidateCompiledModel]
  | some v =>
    cases v <;> cases force <;>
      simp [Generators.ValidateCompiledModel]

/-- C2: with a valid cached artifact and `force_compile_if_needed = false`,
`CompileModel` returns the cached compiled path without invoking the
compiler; with `enable_ep_context` unset it performs no compilation and
returns the original model path; and whenever it does compile it returns
the freshly compiled artifact's path. -/
theorem CompileModel_spec (opts : Generators.CompileOptions)
    (artifact : Generators.CompiledArtifact) :
    ((opts.enable_ep_context = true ∧ opts.force_compile_if_needed = false ∧
        artifact.exists_on_disk = true ∧
        Generators.ValidateCompiledModel artifact.compat_info false = true) →
      Generators.CompileModel opts artifact =
        { path := Generators.CompilePath.cachedCompiled,
          compiler_invoked := false }) ∧
    (opts.enable_ep_context = false →
      Generators.CompileModel opts artifact =
        { path := Generators.CompilePath.original,
          compiler_invoked := false }) ∧
    ((Generators.CompileModel opts artifact).compiler_invoked = true →
      (Generators.CompileModel opts artifact).path =
        Generators.CompilePath.freshCompiled) := by
  refine ⟨?_, ?_, ?_⟩
  · rintro ⟨h1, h2, h3, h4⟩
    simp [Generators.CompileModel, Generators.CheckCompiledModelExists,
      h1, h2, h3, h4]
  · intro h
    simp [Generators.CompileModel, h]
  · intro h
    by_cases he : opts.enable_ep_context = true
    · by_cases hc : Generators.CheckCompiledModelExists artifact opts = true
      · simp [Generators.CompileModel, he, hc] at h
      · simp [Generators.CompileModel, he, hc]
    · simp [Generators.CompileModel, Bool.eq_false_iff.mpr he] at h

/-- C3: `PadInputs` returns a flattened buffer of length
`batch * max(len_i)` in which row `i`'s first (right padding) or last
(left padding) `len_i` entries equal source sequence `i` in order, and
every remaining entry of the row equals `pad_token_id`. -/
theorem PadInputs_spec (pad_left : Bool) (seqs : List (List Int))
    (pad : Int) :
    (Generators.PadInputs pad_left seqs pad).length =
      seqs.length * Generators.maxSeqLen seqs ∧
    ∀ i : Fin seqs.length,
      (pad_left = false →
        (padSlice pad_left seqs pad i.val).take (seqs.get i).length =
            seqs.get i ∧
        (padSlice pad_left seqs pad i.val).drop (seqs.get i).length =
            List.replicate
              (Generators.maxSeqLen seqs - (seqs.get i).length) pad) ∧
      (pad_left = true →
        (padSlice pad_left seqs pad i.val).drop
            (Generators.maxSeqLen seqs - (seqs.get i).length) =
            seqs.get i ∧
        (padSlice pad_left seqs pad i.val).take
            (Generators.maxSeqLen seqs - (seqs.get i).length) =
            List.replicate
              (Generators.maxSeqLen seqs - (seqs.get i).length) pad) := by
  constructor
  · have hlen : ∀ r ∈ seqs.map
        (Generators.padRow pad_left (Generators.maxSeqLen seqs) pad),
        r.length = Generators.maxSeqLen seqs := by
      intro r hr
      rcases List.mem_map.mp hr with ⟨s, hs, rfl⟩
      exact padRow_length _ _ _ _ (length_mem_le_maxSeqLen seqs s hs)
    have := join_length_const _ _ hlen
    simpa [Generators.PadInputs] using this
  · intro i
    rw [padSlice_eq pad_left seqs pad i]
    constructor
    · rintro rfl
      simp only [Generators.padRow, if_neg (Bool.false_ne_true)]
      constructor
      · exact take_append_len _ _
      · exact drop_append_exact _ _
    · rintro rfl
      simp only [Generators.padRow, if_true]
      exact ⟨drop_replicate_append _ _ _, take_replicate_append _ _ _⟩

/-- Witness for C3 at a concrete ragged batch: `[[1,2],[3]]` with pad id 9,
right padding, row 1. -/
theorem PadInputs_spec_witness :
    (padSlice false [[1, 2], [3]] 9 1).take
        (([[1, 2], [3]] : List (List Int)).get ⟨1, by decide⟩).length =
      ([[1, 2], [3]] : List (List Int)).get ⟨1, by decide⟩ ∧
    (padSlice false [[1, 2], [3]] 9 1).drop
        (([[1, 2], [3]] : List (List Int)).get ⟨1, by decide⟩).length =
      List.replicate
        (Generators.maxSeqLen [[1, 2], [3]] -
          (([[1, 2], [3]] : List (List Int)).get ⟨1, by decide⟩).length) 9 :=
  ((PadInputs_spec false [[1, 2], [3]] 9).2 ⟨1, by decide⟩).1 rfl

/-- C4: `ExpandInputs` with beam factor `k` on batch size `b` yields batch
size `b * k`, where output rows `[i*k, i*k+k)` are each identical to source
row `i` (block replication in row-major order, elementwise). -/
theorem ExpandInputs_spec (input : List (List Int)) (k : Nat) :
    (Generators.ExpandInputs input k).length = input.length * k ∧
    ∀ i : Fin input.length,
      ((Generators.ExpandInputs input k).drop (i.val * k)).take k =
        List.replicate k (input.get i) := by
  have hlen : ∀ r ∈ input.map (List.replicate k (α := List Int)),
      r.length = k := by
    intro r hr
    rcases List.mem_map.mp hr with ⟨s, hs, rfl⟩
    exact List.length_replicate _ _
  constructor
  · have := join_length_const _ _ hlen
    simpa [Generators.ExpandInputs] using this
  · intro i
    have hi : i.val < (input.map (List.replicate k (α := List Int))).length := by
      simpa using i.isLt
    have hslice := join_row_slice _ _ hlen i.val hi
    have hget : (input.map (List.replicate k (α := List Int))).get
        ⟨i.val, hi⟩ = List.replicate k (input.get i) := by
      simp [List.get_eq_getElem, List.getElem_map]
    rw [Generators.ExpandInputs, hslice, hget]

theorem assocLookup_mem {α β : Type} [DecidableEq α] (l : List (α × β))
    (x : α) (b : β) (h : assocLookup l x = some b) : (x, b) ∈ l := by
  induction l with
  | nil => simp [assocLookup] at h
  | cons p rest ih =>
    obtain ⟨a, b'⟩ := p
    by_cases hx : x = a
    · subst hx
      simp [assocLookup] at h
      subst h
      exact List.mem_cons_self _ _
    · simp [assocLookup, hx] at h
      exact List.mem_cons_of_mem _ (ih h)

theorem assocLookup_of_nodup_mem {α β : Type} [DecidableEq α]
    (l : List (α × β)) (a : α) (b : β)
    (hnd : (l.map Prod.fst).Nodup) (hm : (a, b) ∈ l) :
    assocLookup l a = some b := by
  induction l with
  | nil => cases hm
  | cons p rest ih =>
    obtain ⟨a', b'⟩ := p
    rcases List.mem_cons.mp hm with h | h
    · obtain ⟨rfl, rfl⟩ := Prod.mk.injEq .. ▸ h
      simp [assocLookup]
    · have ha : a ∈ rest.map Prod.fst :=
        List.mem_map_of_mem Prod.fst h
      have hne : a ≠ a' := by
        intro hEq
        subst hEq
        exact (List.nodup_cons.mp (by simpa using hnd)).1 ha
      have hnd' : (rest.map Prod.fst).Nodup :=
        (List.nodup_cons.mp (by simpa using hnd)).2
      simp [assocLookup, hne]
      exact ih hnd' h

theorem revLookup_of_lookup (v : Generators.Vocab)
    (hwf : v.WellFormed) (c : Char) (i : Nat)
    (h : assocLookup v.entries c = some i) :
    assocLookup (v.entries.map Prod.swap) i = some c := by
  have hm : (c, i) ∈ v.entries := assocLookup_mem _ _ _ h
  have hm' : (i, c) ∈ v.entries.map Prod.swap := by
    exact List.mem_map_of_mem Prod.swap hm
  have hnd : ((v.entries.map Prod.swap).map Prod.fst).Nodup := by
    have : (v.entries.map Prod.swap).map Prod.fst =
        v.entries.map Prod.snd := by
      simp [List.map_map, Function.comp_def]
    rw [this]
    exact hwf
  exact assocLookup_of_nodup_mem _ _ _ hnd hm'

/-- C5: for vocabulary-valid text containing no unknown symbols,
`Decode (Encode text) = text`; `Encode` and `Decode` are pure functions of
the configured vocabulary by construction (they take only the vocabulary
and their input). -/
theorem Encode_Decode_roundtrip (v : Generators.Vocab) (text : List Char)
    (hwf : v.WellFormed)
    (hvalid : ∀ c ∈ text, (assocLookup v.entries c).isSome = true) :
    (Generators.Encode v text).bind (Generators.Decode v) = some text := by
  induction text with
  | nil => simp [Generators.Encode, Generators.Decode]
  | cons c cs ih =>
    have hc : (assocLookup v.entries c).isSome = true :=
      hvalid c (List.mem_cons_self _ _)
    obtain ⟨i, hi⟩ := Option.isSome_iff_exists.mp hc
    have hcs : ∀ x ∈ cs, (assocLookup v.entries x).isSome = true :=
      fun x hx => hvalid x (List.mem_cons_of_mem _ hx)
    have ihcs := ih hcs
    obtain ⟨is, his⟩ : ∃ is, Generators.Encode v cs = some is := by
      cases hE : Generators.Encode v cs with
      | none => rw [hE] at ihcs; simp at ihcs
      | some is => exact ⟨is, rfl⟩
    rw [his] at ihcs
    simp only [Option.some_bind] at ihcs
    have hrev := revLookup_of_lookup v hwf c i hi
    simp only [Generators.Encode, hi, his]
    simp only [Option.some_bind, Generators.Decode, hrev, ihcs]

/-- Witness for C5 at a concrete two-symbol vocabulary and the text "ab". -/
theorem Encode_Decode_roundtrip_witness :
    (Generators.Encode ⟨[(Char.ofNat 97, 1), (Char.ofNat 98, 2)]⟩
        [Char.ofNat 97, Char.ofNat 98]).bind
      (Generators.Decode ⟨[(Char.ofNat 97, 1), (Char.ofNat 98, 2)]⟩) =
      some [Char.ofNat 97, Char.ofNat 98] :=
  Encode_Decode_roundtrip ⟨[(Char.ofNat 97, 1), (Char.ofNat 98, 2)]⟩
    [Char.ofNat 97, Char.ofNat 98] (by decide) (by decide)

theorem take_append_of_length {α : Type} (l₁ l₂ : List α) (n : Nat)
    (h : l₁.length = n) : (l₁ ++ l₂).take n = l₁ := by
  subst h
  exact take_append_len _ _

theorem runSteps_append {α : Type} (step : List α → Int → α)
    (s : Generators.GenState α) (ts us : List Int) :
    Generators.runSteps step s (ts ++ us) =
      Generators.runSteps step (Generators.runSteps step s ts) us := by
  simp [Generators.runSteps, List.foldl_append]

theorem runSteps_cache_extend {α : Type} (step : List α → Int → α) :
    ∀ (us : List Int) (s : Generators.GenState α),
      ∃ ext, (Generators.runSteps step s us).cache = s.cache ++ ext := by
  intro us
  induction us with
  | nil => intro s; exact ⟨[], by simp [Generators.runSteps]⟩
  | cons t ts ih =>
    intro s
    obtain ⟨ext, hext⟩ := ih { cache := s.cache ++ [step s.cache t] }
    refine ⟨[step s.cache t] ++ ext, ?_⟩
    have hstep : Generators.runSteps step s (t :: ts) =
        Generators.runSteps step { cache := s.cache ++ [step s.cache t] } ts :=
      rfl
    rw [hstep, hext, List.append_assoc]

theorem runSteps_cache_length {α : Type} (step : List α → Int → α) :
    ∀ (us : List Int) (s : Generators.GenState α),
      (Generators.runSteps step s us).cache.length =
        s.cache.length + us.length := by
  intro us
  induction us with
  | nil => intro s; simp [Generators.runSteps]
  | cons t ts ih =>
    intro s
    have hstep : Generators.runSteps step s (t :: ts) =
        Generators.runSteps step { cache := s.cache ++ [step s.cache t] } ts :=
      rfl
    rw [hstep, ih]
    simp
    omega

/-- C6: rewinding twice to the same index is the same as rewinding once;
and after `RewindTo i` on a state built by running `ts`, the state equals a
fresh state run on the first `i` inputs, so any further run continues
exactly as a fresh run of the first `i` inputs followed by the new ones. -/
theorem RewindTo_spec {α : Type} (step : List α → Int → α) (i : Nat)
    (s : Generators.GenState α) (ts us : List Int) (hi : i ≤ ts.length) :
    Generators.RewindTo i (Generators.RewindTo i s) =
      Generators.RewindTo i s ∧
    Generators.RewindTo i (Generators.runSteps step { cache := [] } ts) =
      Generators.runSteps step { cache := [] } (ts.take i) ∧
    Generators.runSteps step
        (Generators.RewindTo i
          (Generators.runSteps step { cache := [] } ts)) us =
      Generators.runSteps step { cache := [] } (ts.take i ++ us) := by
  have hplen : (Generators.runSteps step
      ({ cache := [] } : Generators.GenState α) (ts.take i)).cache.length =
      i := by
    rw [runSteps_cache_length]
    simp [List.length_take]
    omega
  have key : Generators.RewindTo i
      (Generators.runSteps step { cache := [] } ts) =
      Generators.runSteps step { cache := [] } (ts.take i) := by
    have hsplit : Generators.runSteps step
        ({ cache := [] } : Generators.GenState α) ts =
        Generators.runSteps step
          (Generators.runSteps step { cache := [] } (ts.take i))
          (ts.drop i) := by
      rw [← runSteps_append, List.take_append_drop]
    obtain ⟨ext, hext⟩ := runSteps_cache_extend step (ts.drop i)
      (Generators.runSteps step { cache := [] } (ts.take i))
    rw [hsplit]
    unfold Generators.RewindTo
    rw [hext, take_append_of_length _ _ _ hplen]
  refine ⟨?_, key, ?_⟩
  · simp [Generators.RewindTo, List.take_take]
  · rw [key, ← runSteps_append]

/-- Witness for C6 at a concrete state, step function and input lists. -/
theorem RewindTo_spec_witness :
    Generators.RewindTo 1 (Generators.RewindTo 1
        (⟨[1, 2, 3]⟩ : Generators.GenState Int)) =
      Generators.RewindTo 1 (⟨[1, 2, 3]⟩ : Generators.GenState Int) ∧
    Generators.RewindTo 1
        (Generators.runSteps (fun _ t => t) { cache := [] } [5, 6]) =
      Generators.runSteps (fun _ t => t) { cache := [] } ([5, 6].take 1) ∧
    Generators.runSteps (fun _ t => t)
        (Generators.RewindTo 1
          (Generators.runSteps (fun _ t => t) { cache := [] } [5, 6])) [7] =
      Generators.runSteps (fun _ t => t) { cache := [] }
        ([5, 6].take 1 ++ [7]) :=
  RewindTo_spec (fun _ t => t) 1 ⟨[1, 2, 3]⟩ [5, 6] [7] (by decide)

theorem assocLookup_eq_none {α β : Type} [DecidableEq α]
    (l : List (α × β)) (x : α) (h : x ∉ l.map Prod.fst) :
    assocLookup l x = none := by
  induction l with
  | nil => rfl
  | cons p rest ih =>
    obtain ⟨a, b⟩ := p
    simp only [List.map_cons, List.mem_cons] at h
    push_neg at h
    simp only [assocLookup, if_neg h.1]
    exact ih h.2

theorem assocLookup_exists_of_mem {α β : Type} [DecidableEq α]
    (l : List (α × β)) (x : α) (h : x ∈ l.map Prod.fst) :
    ∃ b, assocLookup l x = some b := by
  induction l with
  | nil => simp at h
  | cons p rest ih =>
    obtain ⟨a, b⟩ := p
    by_cases hx : x = a
    · exact ⟨b, by simp [assocLookup, hx]⟩
    · simp only [List.map_cons, List.mem_cons] at h
      rcases h with h | h
      · exact absurd h hx
      · obtain ⟨b', hb'⟩ := ih h
        exact ⟨b', by simp [assocLookup, hx, hb']⟩

/-- C7: on an index-aligned state, `GetInput`/`GetOutput` return `none`
(null, not an error) exactly when no tensor of that name is bound, and the
bound handle (paired with its name) otherwise. -/
theorem GetInput_GetOutput_spec (s : Generators.StateIO) (name : String)
    (h : Generators.Aligned s) :
    (name ∉ s.input_names_ → Generators.GetInput s name = none) ∧
    (name ∈ s.input_names_ →
      ∃ v, Generators.GetInput s name = some v ∧
        (name, v) ∈ s.input_names_.zip s.inputs_) ∧
    (name ∉ s.output_names_ → Generators.GetOutput s name = none) ∧
    (name ∈ s.output_names_ →
      ∃ v, Generators.GetOutput s name = some v ∧
        (name, v) ∈ s.output_names_.zip s.outputs_) := by
  obtain ⟨hin, hout⟩ := h
  have hmapin : (s.input_names_.zip s.inputs_).map Prod.fst =
      s.input_names_ := List.map_fst_zip _ _ (le_of_eq hin)
  have hmapout : (s.output_names_.zip s.outputs_).map Prod.fst =
      s.output_names_ := List.map_fst_zip _ _ (le_of_eq hout)
  refine ⟨?_, ?_, ?_, ?_⟩
  · intro hn
    exact assocLookup_eq_none _ _ (by rw [hmapin]; exact hn)
  · intro hn
    obtain ⟨v, hv⟩ := assocLookup_exists_of_mem
      (s.input_names_.zip s.inputs_) name (by rw [hmapin]; exact hn)
    exact ⟨v, hv, assocLookup_mem _ _ _ hv⟩
  · intro hn
    exact assocLookup_eq_none _ _ (by rw [hmapout]; exact hn)
  · intro hn
    obtain ⟨v, hv⟩ := assocLookup_exists_of_mem
      (s.output_names_.zip s.outputs_) name (by rw [hmapout]; exact hn)
    exact ⟨v, hv, assocLookup_mem _ _ _ hv⟩

/-- Witness for C7 at a concrete bound state and a bound name. -/
theorem GetInput_GetOutput_spec_witness :
    ∃ v, Generators.GetInput ⟨["x"], ["y"], [1], [2]⟩ "x" = some v ∧
      ("x", v) ∈ (["x"].zip [1] : List (String × Nat)) :=
  (GetInput_GetOutput_spec ⟨["x"], ["y"], [1], [2]⟩ "x"
    ⟨rfl, rfl⟩).2.1 (by decide)

theorem foldl_stepFirstRun_false (ops : List Generators.StateOp)
    (h : Generators.StateOp.rewind ∉ ops) :
    ops.foldl Generators.stepFirstRun false = false := by
  induction ops with
  | nil => rfl
  | cons op rest ih =>
    simp only [List.mem_cons] at h
    push_neg at h
    cases op with
    | run => exact ih h.2
    | rewind => exact absurd rfl h.1
    | other => exact ih h.2

theorem firstRunAfter_true_iff (ops : List Generators.StateOp)
    (h : Generators.StateOp.rewind ∉ ops) :
    Generators.firstRunAfter ops = true ↔
      Generators.StateOp.run ∉ ops := by
  induction ops with
  | nil => simp [Generators.firstRunAfter]
  | cons op rest ih =>
    simp only [List.mem_cons] at h
    push_neg at h
    cases op with
    | run =>
      have hfold : Generators.firstRunAfter
          (Generators.StateOp.run :: rest) = false :=
        foldl_stepFirstRun_false rest h.2
      simp [hfold]
    | rewind => exact absurd rfl h.1
    | other =>
      have hfold : Generators.firstRunAfter
          (Generators.StateOp.other :: rest) =
          Generators.firstRunAfter rest := rfl
      rw [hfold, ih h.2]
      simp

/-- C8: `first_run_` starts true, becomes false exactly when a `Run` has
occurred, and over any operation sequence containing no explicit rewind it
never returns to true: once false, it stays false. -/
theorem firstRun_spec (ops : List Generators.StateOp)
    (h : Generators.StateOp.rewind ∉ ops) :
    Generators.firstRunAfter [] = true ∧
    (Generators.firstRunAfter ops = true ↔
      Generators.StateOp.run ∉ ops) ∧
    ops.foldl Generators.stepFirstRun false = false :=
  ⟨rfl, firstRunAfter_true_iff ops h, foldl_stepFirstRun_false ops h⟩

/-- Witness for C8 at a concrete rewind-free operation sequence. -/
theorem firstRun_spec_witness :
    Generators.firstRunAfter [] = true ∧
    (Generators.firstRunAfter
        [Generators.StateOp.other, Generators.StateOp.run] = true ↔
      Generators.StateOp.run ∉
        [Generators.StateOp.other, Generators.StateOp.run]) ∧
    [Generators.StateOp.other,
      Generators.StateOp.run].foldl Generators.stepFirstRun false = false :=
  firstRun_spec [Generators.StateOp.other, Generators.StateOp.run]
    (by decide)

/-- C9: the binding operations keep `inputs_`/`input_names_` and
`outputs_`/`output_names_` index-aligned, and `ClearIO` empties all four
vectors in one step, leaving no partially cleared state. -/
theorem ClearIO_spec (s : Generators.StateIO) (name : String) (v : Nat)
    (h : Generators.Aligned s) :
    Generators.Aligned (Generators.bindInput s name v) ∧
    Generators.Aligned (Generators.bindOutput s name v) ∧
    Generators.Aligned (Generators.ClearIO s) ∧
    (Generators.ClearIO s).input_names_ = [] ∧
    (Generators.ClearIO s).inputs_ = [] ∧
    (Generators.ClearIO s).output_names_ = [] ∧
    (Generators.ClearIO s).outputs_ = [] := by
  obtain ⟨h1, h2⟩ := h
  refine ⟨⟨?_, ?_⟩, ⟨?_, ?_⟩, ⟨rfl, rfl⟩, rfl, rfl, rfl, rfl⟩ <;>
    simp [Generators.bindInput, Generators.bindOutput,
      Generators.Aligned, h1, h2]

/-- Witness for C9 at a concrete aligned state. -/
theorem ClearIO_spec_witness :
    Generators.Aligned (Generators.bindInput ⟨["a"], ["b"], [1], [2]⟩ "n" 5) ∧
    Generators.Aligned (Generators.bindOutput ⟨["a"], ["b"], [1], [2]⟩ "n" 5) ∧
    Generators.Aligned (Generators.ClearIO ⟨["a"], ["b"], [1], [2]⟩) ∧
    (Generators.ClearIO ⟨["a"], ["b"], [1], [2]⟩).input_names_ = [] ∧
    (Generators.ClearIO ⟨["a"], ["b"], [1], [2]⟩).inputs_ = [] ∧
    (Generators.ClearIO ⟨["a"], ["b"], [1], [2]⟩).output_names_ = [] ∧
    (Generators.ClearIO ⟨["a"], ["b"], [1], [2]⟩).outputs_ = [] :=
  ClearIO_spec ⟨["a"], ["b"], [1], [2]⟩ "n" 5 ⟨rfl, rfl⟩

/-- Witness for C2 at a concrete configuration: `enable_ep_context` set, no
forced recompilation, valid cached artifact on disk. -/
theorem CompileModel_spec_witness :
    Generators.CompileModel ⟨true, false⟩
        ⟨true, some Generators.CompatVerdict.OPTIMAL⟩ =
      { path := Generators.CompilePath.cachedCompiled,
        compiler_invoked := false } :=
  (CompileModel_spec ⟨true, false⟩
    ⟨true, some Generators.CompatVerdict.OPTIMAL⟩).1
    ⟨rfl, rfl, rfl, by decide⟩
